import Mathlib

/-!
Verification development for the task-dispatch and decoding core of a
transformer-pipeline library (`src/pipelines.js`).

Modelling conventions:
* JavaScript numbers are modelled as rationals (`ℚ`); machine floats are
  idealized as exact arithmetic.  Division by zero follows the `ℚ`
  convention `x / 0 = 0`, standing in for JavaScript's `NaN` as an
  arbitrary defined junk value.
* The external collaborators (tokenizer, model, processor) are passed in as
  parameters: a model forward pass is represented by the logits it returns
  (one row per batched input item), a tokenizer decode by an abstract
  `List Nat → String` function.
* `Math.exp` has no computable counterpart on `ℚ`, so `softmax` is
  parametric in an exponential-like map `e : ℚ → ℚ`; every theorem that
  needs it assumes only `∀ x, 0 < e x`, which holds for the real `exp`.
-/

/-- Stable insertion of `a` into `l`, keeping keys in descending order:
`a` goes before the first element whose key is not larger.  Combined with
`sortDescBy` (which inserts earlier elements later) this models
JavaScript's stable `Array.prototype.sort` with a descending comparator. -/
def insertDescBy {α : Type} (key : α → ℚ) (a : α) : List α → List α
  | [] => [a]
  | b :: l => if key b ≤ key a then a :: b :: l else b :: insertDescBy key a l

/-- Stable sort by descending key (models `.sort((a, b) => b.key - a.key)`). -/
def sortDescBy {α : Type} (key : α → ℚ) : List α → List α
  | [] => []
  | a :: l => insertDescBy key a (sortDescBy key l)

/-- Maximum of a list of rationals (`max` over the elements; 0 on `[]`). -/
def listMax (v : List ℚ) : ℚ := v.foldl max (v.headD 0)

/-- Modelled from the spec: `softmax` from `utils/maths.js` is not under
`src/`; §4.3 describes it as the numerically-stable softmax that subtracts
the maximum logit before exponentiating.  The exponential is the parameter
`e` (see file header). -/
def softmax (e : ℚ → ℚ) (v : List ℚ) : List ℚ :=
  let exps := v.map fun x => e (x - listMax v)
  exps.map fun y => y / exps.sum

/-- Index/value enumeration of a list, `(i, l[i])` pairs in order (models a
JavaScript `.map((x, i) => [i, x])`). -/
def jsEnumIdx (l : List ℚ) : List (Nat × ℚ) :=
  (List.range l.length).map fun i => (i, l.getD i 0)

/-- Modelled from the spec: `getTopItems` from `utils/maths.js` is not under
`src/`; §4.3 describes it as selecting the `topk` highest-scoring
(index, score) pairs, ties broken by first-seen index (stable sort). -/
def getTopItems (items : List ℚ) (topk : Nat) : List (Nat × ℚ) :=
  (sortDescBy (fun p => p.2) (jsEnumIdx items)).take topk

/-- One (label, score) result atom of the classification family. -/
structure LabeledScore where
  label : String
  score : ℚ
deriving DecidableEq

/-- Possible shapes of a classification pipeline result: `flat` is the
`topk === 1` outer array of per-item objects, `nested` the outer array of
per-item arrays, `single` a bare per-item array (scalar-shaped result,
`toReturn[0]`). -/
inductive ClsOut where
  | flat : List LabeledScore → ClsOut
  | nested : List (List LabeledScore) → ClsOut
  | single : List LabeledScore → ClsOut
deriving DecidableEq

/-- Whether the result carries an outer array over input items. -/
def ClsOut.isArrayShaped : ClsOut → Bool
  | .single _ => false
  | _ => true

/-- Outer array length of a result (`none` for a scalar-shaped result). -/
def ClsOut.outerLength : ClsOut → Option Nat
  | .flat l => some l.length
  | .nested l => some l.length
  | .single _ => none

/-- Per-item decode shared verbatim by `TextClassificationPipeline._call`
(src/pipelines.js:140-154) and `ImageClassificationPipeline._call`
(src/pipelines.js:926-940): for every logits row, softmax, take the top
`topk` (index, score) pairs and map the index through `id2label`. -/
def classifyVals (e : ℚ → ℚ) (id2label : Nat → String) (topk : Nat)
    (logits : List (List ℚ)) : List (List LabeledScore) :=
  logits.map fun batch =>
    (getTopItems (softmax e batch) topk).map fun x => ⟨id2label x.1, x.2⟩

/-- Shallow embedding of `TextClassificationPipeline._call`
(src/pipelines.js:132-157).  `isArray` records `Array.isArray(texts)`;
`logits` is the model output, one row per batched input item.  The loop
body pushes `...vals` (flattening) when `topk === 1` and `vals` otherwise,
and the final line is
`Array.isArray(texts) || topk === 1 ? toReturn : toReturn[0]`. -/
def TextClassificationPipeline_call (e : ℚ → ℚ) (id2label : Nat → String)
    (isArray : Bool) (topk : Nat) (logits : List (List ℚ)) : ClsOut :=
  let toReturn := classifyVals e id2label topk logits
  if topk = 1 then ClsOut.flat toReturn.flatten
  else if isArray then ClsOut.nested toReturn
  else ClsOut.single (toReturn.headD [])

/-- Shallow embedding of `ImageClassificationPipeline._call`
(src/pipelines.js:915-943); its decode loop and final line
`isBatched || topk === 1 ? toReturn : toReturn[0]` are identical in
structure to the text-classification ones. -/
def ImageClassificationPipeline_call (e : ℚ → ℚ) (id2label : Nat → String)
    (isBatched : Bool) (topk : Nat) (logits : List (List ℚ)) : ClsOut :=
  let toReturn := classifyVals e id2label topk logits
  if topk = 1 then ClsOut.flat toReturn.flatten
  else if isBatched then ClsOut.nested toReturn
  else ClsOut.single (toReturn.headD [])

/-- Constant positive stand-in for the exponential, used by witnesses. -/
def eOne : ℚ → ℚ := fun _ => 1

/-- Constant label table used by witnesses. -/
def labelL : Nat → String := fun _ => "L"

/-- Constant token decoder used by witnesses. -/
def decodeEmpty : List Nat → String := fun _ => ""

/-- JavaScript `Array.prototype.indexOf`: index of the first occurrence of
`v` in `l`, `-1` when absent. -/
def jsIndexOf (l : List Nat) (v : Nat) : ℤ :=
  match l.findIdx? (fun x => x == v) with
  | some i => (i : ℤ)
  | none => -1

/-- One item of a question-answering result. -/
structure QAItem where
  answer : String
  score : ℚ
deriving DecidableEq

/-- Result shape of the QA pipeline: `topk === 1` returns `toReturn[0]`
(a single object; `none` models JavaScript `undefined` when no span
exists), anything else the whole array. -/
inductive QAOut where
  | single : Option QAItem → QAOut
  | many : List QAItem → QAOut
deriving DecidableEq

/-- Whether a QA result is a single object rather than an array. -/
def QAOut.isSingleObject : QAOut → Bool
  | .single _ => true
  | .many _ => false

/-- Shallow embedding of the span search inside
`QuestionAnsweringPipeline._call` (src/pipelines.js:255-269) for one item:
softmax start- and end-logits independently, pair each probability with its
index, keep indices strictly after the separator, take the Cartesian
product, drop pairs with `start > end`, score by the product of the two
probabilities and sort descending by score.  Entries are
`(start, end, score)`. -/
def qaValidSpans (e : ℚ → ℚ) (sep_token_id : Nat) (ids : List Nat)
    (sLog eLog : List ℚ) : List (Nat × Nat × ℚ) :=
  let sepIndex := jsIndexOf ids sep_token_id
  let s1 := ((List.range (softmax e sLog).length).map
      fun i => ((softmax e sLog).getD i 0, i)).filter fun x => sepIndex < (x.2 : ℤ)
  let e1 := ((List.range (softmax e eLog).length).map
      fun i => ((softmax e eLog).getD i 0, i)).filter fun x => sepIndex < (x.2 : ℤ)
  sortDescBy (fun t => t.2.2)
    (((s1.flatMap fun d => e1.map fun e2 => (d, e2)).filter
        fun x => x.1.2 ≤ x.2.2).map
      fun x => (x.1.2, x.2.2, x.1.1 * x.2.1))

/-- The `toReturn` accumulation of `QuestionAnsweringPipeline._call`
(src/pipelines.js:254-286).  Each element of `items` is one batched item:
its token ids together with the model's start- and end-logits row.
`decode` stands for `tokenizer.decode(·, skip_special_tokens: true)`.
Per item the top `min(options.length, topk)` spans are pushed, each as
`{answer, score}` with `answer` decoded from `ids.slice(start, end + 1)`. -/
def qaToReturn (e : ℚ → ℚ) (sep_token_id : Nat) (decode : List Nat → String)
    (items : List (List Nat × List ℚ × List ℚ)) (topk : Nat) : List QAItem :=
  items.flatMap fun it =>
    ((qaValidSpans e sep_token_id it.1 it.2.1 it.2.2).take topk).map fun t =>
      ⟨decode ((it.1.drop t.1).take (t.2.1 + 1 - t.1)), t.2.2⟩

/-- Final result shaping of `QuestionAnsweringPipeline._call`
(src/pipelines.js:289): `(topk === 1) ? toReturn[0] : toReturn`. -/
def QuestionAnsweringPipeline_call (e : ℚ → ℚ) (sep_token_id : Nat)
    (decode : List Nat → String) (items : List (List Nat × List ℚ × List ℚ))
    (topk : Nat) : QAOut :=
  let toReturn := qaToReturn e sep_token_id decode items topk
  if topk = 1 then QAOut.single toReturn.head? else QAOut.many toReturn

/-- One zero-shot classification result (src/pipelines.js:595-599). -/
structure ZSResult where
  sequence : String
  labels : List String
  scores : List ℚ
deriving DecidableEq

/-- Entailment/contradiction id resolution from
`ZeroShotClassificationPipeline`'s constructor (src/pipelines.js:502-523):
keys of `label2id` are lowercased; a missing `entailment` key falls back to
2 and a missing `contradiction` key to 0 (each with a console warning,
which has no return-value effect and is not modelled). -/
def resolveNliIds (label2id : List (String × Nat)) : Nat × Nat :=
  let lowered := label2id.map fun p => (p.1.toLower, p.2)
  ((lowered.lookup "entailment").getD 2, (lowered.lookup "contradiction").getD 0)

/-- Scoring step of `ZeroShotClassificationPipeline._call`
(src/pipelines.js:556-586) for one premise.  `hypothesis_logits` holds the
model's flat logits row for each premise/hypothesis pair, in candidate
order (the model is called once per hypothesis).  The branch condition is
`softmaxEach = multi_label || candidate_labels.length === 1`; in that mode
each label is scored by the entailment entry of a softmax over its own
(contradiction, entailment) pair, otherwise by one joint softmax of the
raw entailment logits. -/
def zeroShotRawScores (e : ℚ → ℚ) (entailment_id contradiction_id : Nat)
    (numCandidates : Nat) (multi_label : Bool)
    (hypothesis_logits : List (List ℚ)) : List ℚ :=
  if multi_label || numCandidates == 1 then
    hypothesis_logits.map fun l =>
      (softmax e [l.getD contradiction_id 0, l.getD entailment_id 0]).getD 1 0
  else
    softmax e (hypothesis_logits.map fun l => l.getD entailment_id 0)

/-- Sorting and labelling step of `ZeroShotClassificationPipeline._call`
(src/pipelines.js:588-599): pair each score with its index, sort descending
by score, and read the labels and scores off the sorted pairs. -/
def ZeroShotClassificationPipeline_call_one (e : ℚ → ℚ)
    (entailment_id contradiction_id : Nat) (premise : String)
    (candidate_labels : List String) (multi_label : Bool)
    (hypothesis_logits : List (List ℚ)) : ZSResult :=
  let scores : List ℚ := zeroShotRawScores e entailment_id contradiction_id
    candidate_labels.length multi_label hypothesis_logits
  let scores_sorted :=
    sortDescBy (fun p => p.1) ((List.range scores.length).map fun i => (scores.getD i 0, i))
  { sequence := premise
    labels := scores_sorted.map fun x => candidate_labels.getD x.2 ""
    scores := scores_sorted.map fun x => x.1 }

/-- One output entry of `FeatureExtractionPipeline._mean_pooling`
(src/pipelines.js:624-661) for batch item `i` and embedding dimension `k`:
the inner `j` loop accumulates `sum += data[offset + k + j*embedDim] * attn`
and `count += attn` over the flat tensor buffers, then stores
`sum / count`. -/
def meanPoolEntry (lhsData attnData : List ℚ) (seqLength embedDim i k : Nat) : ℚ :=
  let sum := ((List.range seqLength).map fun j =>
      lhsData.getD (i * embedDim * seqLength + k + j * embedDim) 0 *
        attnData.getD (i * seqLength + j) 0).sum
  let count := ((List.range seqLength).map fun j =>
      attnData.getD (i * seqLength + j) 0).sum
  sum / count

/-- Shallow embedding of `FeatureExtractionPipeline._mean_pooling`
(src/pipelines.js:624-661): the output buffer of shape
[batchSize, embedDim] written in row-major order. -/
def FeatureExtractionPipeline_mean_pooling (lhsData attnData : List ℚ)
    (batchSize seqLength embedDim : Nat) : List ℚ :=
  (List.range batchSize).flatMap fun i =>
    (List.range embedDim).map fun k =>
      meanPoolEntry lhsData attnData seqLength embedDim i k

/-- One ASR chunk record as built by
`AutomaticSpeechRecognitionPipeline._call`: the stride triple
`[subarr.length, left, right]` (in samples) plus the `is_last` flag. -/
structure AsrChunk where
  chunkLen : ℚ
  left : ℚ
  right : ℚ
  is_last : Bool
deriving DecidableEq

/-- Shallow embedding of the chunking loop of
`AutomaticSpeechRecognitionPipeline._call` (src/pipelines.js:789-805):
while `offset < len`, push a chunk for `aud.subarray(offset, offset+window)`
(length `min window (len - offset)`), with left overlap 0 on the first
window and `stride` otherwise, right overlap 0 on the last window
(`offset + jump >= len`) and `stride` otherwise, then advance by `jump`.
The JavaScript loop has no fuel; `fuel` bounds the number of iterations so
the model stays total (the loop diverges when `jump ≤ 0`, and every theorem
below assumes enough fuel for its inputs). -/
def asrWindowChunks (len window stride jump : ℚ) : Nat → ℚ → List AsrChunk
  | 0, _ => []
  | fuel + 1, offset =>
    if offset < len then
      { chunkLen := min window (len - offset)
        left := if offset = 0 then 0 else stride
        right := if offset + jump < len then stride else 0
        is_last := decide (len ≤ offset + jump) } ::
        asrWindowChunks len window stride jump fuel (offset + jump)
    else []

/-- Shallow embedding of the chunk-construction part of
`AutomaticSpeechRecognitionPipeline._call` (src/pipelines.js:773-813) for
one audio item of length `len` samples: when `chunk_length_s > 0` the
stride defaults to `chunk_length_s / 6` when unspecified and a supplied
`stride_length_s ≥ chunk_length_s` raises the validation error; otherwise
a single whole-clip chunk with stride `[len, 0, 0]` marked last. -/
def AutomaticSpeechRecognitionPipeline_chunks (fuel : Nat)
    (sampling_rate len chunk_length_s : ℚ) (stride_length_s : Option ℚ) :
    Except String (List AsrChunk) :=
  if 0 < chunk_length_s then
    match stride_length_s with
    | none =>
        let s := chunk_length_s / 6
        .ok (asrWindowChunks len (sampling_rate * chunk_length_s)
          (sampling_rate * s)
          (sampling_rate * chunk_length_s - 2 * (sampling_rate * s)) fuel 0)
    | some s =>
        if chunk_length_s ≤ s then
          .error "`chunk_length_s` must be larger than `stride_length_s`."
        else
          .ok (asrWindowChunks len (sampling_rate * chunk_length_s)
            (sampling_rate * s)
            (sampling_rate * chunk_length_s - 2 * (sampling_rate * s)) fuel 0)
  else .ok [⟨len, 0, 0, true⟩]

/-- Post-generation conversion of a chunk's stride triple from samples to
seconds, `chunk.stride = chunk.stride.map(x => x / sampling_rate)`
(src/pipelines.js:824). -/
def strideToSeconds (sampling_rate : ℚ) (c : AsrChunk) : ℚ × ℚ × ℚ :=
  (c.chunkLen / sampling_rate, c.left / sampling_rate, c.right / sampling_rate)

/-- The alias map `TASK_ALIASES` (src/pipelines.js:1375-1382). -/
def TASK_ALIASES : List (String × String) :=
  [("sentiment-analysis", "text-classification"),
   ("ner", "token-classification"),
   ("vqa", "visual-question-answering"),
   ("embeddings", "feature-extraction")]

/-- The keys of the task registry `SUPPORTED_TASKS`
(src/pipelines.js:1179-1372), in declaration order. -/
def SUPPORTED_TASKS_keys : List String :=
  ["text-classification", "token-classification", "question-answering",
   "fill-mask", "summarization", "translation", "text2text-generation",
   "text-generation", "zero-shot-classification",
   "automatic-speech-recognition", "image-to-text", "image-classification",
   "image-segmentation", "zero-shot-image-classification",
   "object-detection", "feature-extraction"]

/-- JavaScript `s.split('_', 1)[0]`: the segment before the first
underscore (the whole string when there is none). -/
def jsSplitFirstUnderscore (s : String) : String :=
  String.mk (s.toList.takeWhile fun c => !(c == '_'))

/-- Shallow embedding of the task-resolution part of `pipeline`
(src/pipelines.js:1411-1418): apply the alias map with fallthrough
(`TASK_ALIASES[task] ?? task`), look the first underscore-separated segment
up among the registry keys, and fail with the message enumerating all keys
(`Object.keys` joins with a comma under string interpolation) otherwise.
On success it returns the registry key used.  The model identifier and the
option object play no part in this step. -/
def pipeline_resolveTask (task : String) : Except String String :=
  let resolved := (TASK_ALIASES.lookup task).getD task
  let key := jsSplitFirstUnderscore resolved
  if SUPPORTED_TASKS_keys.contains key then .ok key
  else .error ("Unsupported pipeline: " ++ resolved ++ ". Must be one of [" ++
    String.intercalate "," SUPPORTED_TASKS_keys ++ "]")

/-- The `subtasks_mapping` table of `ImageSegmentationPipeline`
(src/pipelines.js:963-968). -/
def subtasks_mapping : List (String × String) :=
  [("panoptic", "post_process_panoptic_segmentation"),
   ("instance", "post_process_instance_segmentation"),
   ("semantic", "post_process_semantic_segmentation")]

/-- A JavaScript value held by the local variable `fn` in
`ImageSegmentationPipeline._call`: `null`, `undefined`, a string, or a
bound feature-extractor method (identified by its name). -/
inductive JsFnVal where
  | nullv : JsFnVal
  | undef : JsFnVal
  | strv : String → JsFnVal
  | funcv : String → JsFnVal
deriving DecidableEq

/-- Shallow embedding of the `fn`/`subtask` selection in
`ImageSegmentationPipeline._call` (src/pipelines.js:1003-1014): with an
explicit subtask, `fn = this.subtasks_mapping[subtask]` — the function
NAME, a string (or `undefined` for an unknown subtask); with no subtask,
the feature extractor is probed for the first available of
panoptic/instance/semantic post-processing and the bound method is taken.
`featureExtractorHas name` models `name in this.processor.feature_extractor`. -/
def segmentationSelectFn (subtask : Option String)
    (featureExtractorHas : String → Bool) : JsFnVal × Option String :=
  match subtask with
  | some st =>
      (match subtasks_mapping.lookup st with
       | some name => .strv name
       | none => .undef, some st)
  | none =>
      match subtasks_mapping.find? fun p => featureExtractorHas p.2 with
      | some p => (.funcv p.2, some p.1)
      | none => (.nullv, none)

/-- Shallow embedding of the dispatch on `subtask` in
`ImageSegmentationPipeline._call` (src/pipelines.js:1019-1055): on the
panoptic/instance path the held `fn` is invoked — which succeeds (returning
the name of the post-processing routine that runs) only when `fn` is an
actual function; calling a string or `undefined` raises a `TypeError`.
The semantic path and unknown subtasks throw their dedicated errors. -/
def ImageSegmentationPipeline_selectAndApply (subtask : Option String)
    (featureExtractorHas : String → Bool) : Except String String :=
  let sel := segmentationSelectFn subtask featureExtractorHas
  match sel.2 with
  | some "panoptic" =>
      (match sel.1 with
       | .funcv name => .ok name
       | _ => .error "TypeError: fn is not a function")
  | some "instance" =>
      (match sel.1 with
       | .funcv name => .ok name
       | _ => .error "TypeError: fn is not a function")
  | some "semantic" => .error "semantic segmentation not yet supported."
  | some st => .error ("Subtask " ++ st ++ " not supported.")
  | none => .error "Subtask null not supported."

/-- Binary mask synthesis for one segment (src/pipelines.js:1034-1039):
pixel `i` is 255 exactly when `segmentation.data[i] === segment.id`,
otherwise 0. -/
def segmentMask (segmentation : List Nat) (segId : Nat) : List Nat :=
  segmentation.map fun v => if v = segId then 255 else 0

/-- One record of the segmentation result (src/pipelines.js:1043-1047). -/
structure SegRecord where
  score : ℚ
  label : String
  mask : List Nat
deriving DecidableEq

/-- Shallow embedding of the per-segment loop in
`ImageSegmentationPipeline._call` (src/pipelines.js:1033-1048): segments
are `(id, label_id, score)` triples from the post-processing routine; each
yields a record with the segment's score, its label from `id2label` and
the binary mask over the segmentation map. -/
def segmentationRecords (id2label : Nat → String) (segmentation : List Nat)
    (segments : List (Nat × Nat × ℚ)) : List SegRecord :=
  segments.map fun s => ⟨s.2.2, id2label s.2.1, segmentMask segmentation s.1⟩

theorem perm_insertDescBy {α : Type} (key : α → ℚ) (a : α) (l : List α) :
    (insertDescBy key a l).Perm (a :: l) := by
  induction l with
  | nil => simp [insertDescBy]
  | cons b t ih =>
    by_cases h : key b ≤ key a
    · simp [insertDescBy, h]
    · simp only [insertDescBy, if_neg h]
      exact (ih.cons b).trans (List.Perm.swap a b t)

theorem perm_sortDescBy {α : Type} (key : α → ℚ) (l : List α) :
    (sortDescBy key l).Perm l := by
  induction l with
  | nil => simp [sortDescBy]
  | cons a t ih =>
    exact (perm_insertDescBy key a (sortDescBy key t)).trans (ih.cons a)

theorem mem_sortDescBy {α : Type} {key : α → ℚ} {x : α} {l : List α} :
    x ∈ sortDescBy key l ↔ x ∈ l :=
  (perm_sortDescBy key l).mem_iff

theorem length_sortDescBy {α : Type} (key : α → ℚ) (l : List α) :
    (sortDescBy key l).length = l.length :=
  (perm_sortDescBy key l).length_eq

theorem pairwise_insertDescBy {α : Type} (key : α → ℚ) (a : α) {l : List α}
    (h : l.Pairwise fun x y => key y ≤ key x) :
    (insertDescBy key a l).Pairwise fun x y => key y ≤ key x := by
  induction l with
  | nil => simp [insertDescBy]
  | cons b t ih =>
    rcases List.pairwise_cons.mp h with ⟨hb, ht⟩
    by_cases hba : key b ≤ key a
    · simp only [insertDescBy, if_pos hba]
      refine List.pairwise_cons.mpr ⟨?_, h⟩
      intro y hy
      rcases List.mem_cons.mp hy with rfl | hyt
      · exact hba
      · exact (hb y hyt).trans hba
    · simp only [insertDescBy, if_neg hba]
      refine List.pairwise_cons.mpr ⟨?_, ih ht⟩
      intro y hy
      rcases List.mem_cons.mp ((perm_insertDescBy key a t).mem_iff.mp hy) with rfl | hyt
      · exact le_of_lt (not_le.mp hba)
      · exact hb y hyt

theorem pairwise_sortDescBy {α : Type} (key : α → ℚ) (l : List α) :
    (sortDescBy key l).Pairwise fun x y => key y ≤ key x := by
  induction l with
  | nil => simp [sortDescBy]
  | cons a t ih => exact pairwise_insertDescBy key a ih

theorem softmax_length (e : ℚ → ℚ) (v : List ℚ) :
    (softmax e v).length = v.length := by
  simp [softmax]

theorem softmax_sum_one (e : ℚ → ℚ) (hpos : ∀ x, 0 < e x) (v : List ℚ)
    (hv : v ≠ []) : (softmax e v).sum = 1 := by
  have hne : (v.map fun x => e (x - listMax v)) ≠ [] := by
    simpa using hv
  have hsum : 0 < (v.map fun x => e (x - listMax v)).sum := by
    refine List.sum_pos _ ?_ hne
    intro x hx
    rcases List.mem_map.mp hx with ⟨y, _, rfl⟩
    exact hpos _
  have hs : (v.map fun x => e (x - listMax v)).sum ≠ 0 := ne_of_gt hsum
  simp only [softmax, div_eq_mul_inv]
  rw [List.sum_map_mul_right, List.map_id']
  exact mul_inv_cancel₀ hs

theorem softmax_getD (e : ℚ → ℚ) (v : List ℚ) (i : Nat) (hi : i < v.length) :
    (softmax e v).getD i 0 =
      e (v.getD i 0 - listMax v) / (v.map fun x => e (x - listMax v)).sum := by
  have hlen : i < (softmax e v).length := by rwa [softmax_length]
  rw [List.getD_eq_getElem _ _ hlen, List.getD_eq_getElem _ _ hi]
  simp [softmax]

theorem getTopItems_length (items : List ℚ) (topk : Nat) :
    (getTopItems items topk).length = min topk items.length := by
  simp [getTopItems, length_sortDescBy, jsEnumIdx]

theorem mem_getTopItems {items : List ℚ} {topk : Nat} {p : Nat × ℚ}
    (hp : p ∈ getTopItems items topk) :
    p.1 < items.length ∧ p.2 = items.getD p.1 0 := by
  have h1 : p ∈ sortDescBy (fun q => q.2) (jsEnumIdx items) :=
    (List.take_sublist _ _).subset hp
  rcases List.mem_map.mp (mem_sortDescBy.mp h1) with ⟨i, hi, rfl⟩
  exact ⟨List.mem_range.mp hi, rfl⟩

theorem pairwise_getTopItems (items : List ℚ) (topk : Nat) :
    (getTopItems items topk).Pairwise fun x y => y.2 ≤ x.2 :=
  List.Pairwise.sublist (List.take_sublist _ _) (pairwise_sortDescBy _ _)

theorem classifyVals_length (e : ℚ → ℚ) (id2label : Nat → String) (topk : Nat)
    (logits : List (List ℚ)) :
    (classifyVals e id2label topk logits).length = logits.length := by
  simp [classifyVals]

theorem classifyVals_flatten_length (e : ℚ → ℚ) (id2label : Nat → String)
    (logits : List (List ℚ)) (hne : ∀ b ∈ logits, b ≠ []) :
    (classifyVals e id2label 1 logits).flatten.length = logits.length := by
  induction logits with
  | nil => simp [classifyVals]
  | cons b t ih =>
    have hb : 1 ≤ b.length :=
      List.length_pos.mpr (hne b (List.mem_cons_self b t))
    have ih2 := ih fun x hx => hne x (List.mem_cons_of_mem b hx)
    simp only [classifyVals, List.map_cons, List.flatten_cons, List.length_append,
      List.length_map, List.length_cons, getTopItems_length, softmax_length] at ih2 ⊢
    omega

/-- C1, counterexample: with a scalar (non-array) input and `topk = 1`,
`TextClassificationPipeline._call` returns `toReturn` — the outer ARRAY of
per-item objects (here of length one) — because its final line unwraps to
`toReturn[0]` only when the input is not an array AND `topk !== 1`.  So a
scalar input does not yield a scalar-shaped result at `topk = 1`, refuting
the claim "for every value of topk". -/
theorem C1_scalar_topk1_counterexample :
    (TextClassificationPipeline_call eOne labelL false 1 [[0, 1]]).isArrayShaped = true := by
  rfl

/-- C1 (amended): an array input yields an outer array of one element per
input item for every `topk ≥ 1` (with non-empty label rows); a scalar input
yields a scalar-shaped result only when `topk ≠ 1`; when `topk = 1` even a
scalar input yields an outer array (of one element per item).  This holds
for both text and image classification. -/
theorem C1_cardinality_amended (e : ℚ → ℚ) (id2label : Nat → String)
    (topk : Nat) (logits : List (List ℚ))
    (hne : ∀ b ∈ logits, b ≠ []) (htopk : 1 ≤ topk) :
    (TextClassificationPipeline_call e id2label true topk logits).outerLength
        = some logits.length
    ∧ (ImageClassificationPipeline_call e id2label true topk logits).outerLength
        = some logits.length
    ∧ (topk ≠ 1 →
        (TextClassificationPipeline_call e id2label false topk logits).isArrayShaped = false
        ∧ (ImageClassificationPipeline_call e id2label false topk logits).isArrayShaped = false)
    ∧ (topk = 1 →
        (TextClassificationPipeline_call e id2label false topk logits).outerLength
            = some logits.length
        ∧ (ImageClassificationPipeline_call e id2label false topk logits).outerLength
            = some logits.length) := by
  by_cases h1 : topk = 1
  · subst h1
    simp [TextClassificationPipeline_call, ImageClassificationPipeline_call,
      ClsOut.outerLength, classifyVals_flatten_length e id2label logits hne]
  · simp [TextClassificationPipeline_call, ImageClassificationPipeline_call, h1,
      ClsOut.outerLength, ClsOut.isArrayShaped, classifyVals_length]

/-- Witness for C1's amended theorem at `topk = 2` over two logit rows. -/
theorem C1_cardinality_amended_witness :
    ((∀ b ∈ ([[0, 1], [0, 2]] : List (List ℚ)), b ≠ []) ∧ (1 : Nat) ≤ 2)
    ∧ ((TextClassificationPipeline_call eOne labelL true 2 [[0, 1], [0, 2]]).outerLength
          = some 2
      ∧ (ImageClassificationPipeline_call eOne labelL true 2 [[0, 1], [0, 2]]).outerLength
          = some 2
      ∧ ((2 : Nat) ≠ 1 →
          (TextClassificationPipeline_call eOne labelL false 2 [[0, 1], [0, 2]]).isArrayShaped
              = false
          ∧ (ImageClassificationPipeline_call eOne labelL false 2 [[0, 1], [0, 2]]).isArrayShaped
              = false)
      ∧ ((2 : Nat) = 1 →
          (TextClassificationPipeline_call eOne labelL false 2 [[0, 1], [0, 2]]).outerLength
              = some 2
          ∧ (ImageClassificationPipeline_call eOne labelL false 2 [[0, 1], [0, 2]]).outerLength
              = some 2)) :=
  ⟨⟨by simp, by omega⟩,
    C1_cardinality_amended eOne labelL 2 [[0, 1], [0, 2]] (by simp) (by omega)⟩

/-- C3: for every classification item the decoder softmaxes the item's
logits (the full score distribution sums to 1), returns exactly `topk`
(label, score) pairs sorted descending by score, each label obtained by
passing the pair's index through the model's id→label table and each score
being the softmaxed probability at that index; and when `topk = 1` each
item's singleton list is spread into the flat outer list
(`toReturn.push(...vals)`) instead of nested. -/
theorem C3_classification_topk (e : ℚ → ℚ) (id2label : Nat → String)
    (topk : Nat) (logits : List (List ℚ)) (ba : Bool)
    (hpos : ∀ x, 0 < e x) (hlen : ∀ b ∈ logits, topk ≤ b.length)
    (hne : ∀ b ∈ logits, b ≠ []) :
    (∀ b ∈ logits,
        (softmax e b).sum = 1
        ∧ ((getTopItems (softmax e b) topk).map
            (fun x => (⟨id2label x.1, x.2⟩ : LabeledScore))).length = topk
        ∧ ((getTopItems (softmax e b) topk).map
            (fun x => (⟨id2label x.1, x.2⟩ : LabeledScore))).Pairwise
            (fun x y => y.score ≤ x.score)
        ∧ ∀ v ∈ (getTopItems (softmax e b) topk).map
            (fun x => (⟨id2label x.1, x.2⟩ : LabeledScore)),
            ∃ i ∈ List.range b.length,
              v.label = id2label i ∧ v.score = (softmax e b).getD i 0)
    ∧ classifyVals e id2label topk logits
        = logits.map (fun b => (getTopItems (softmax e b) topk).map
            fun x => ⟨id2label x.1, x.2⟩)
    ∧ TextClassificationPipeline_call e id2label ba 1 logits
        = ClsOut.flat (classifyVals e id2label 1 logits).flatten
    ∧ ImageClassificationPipeline_call e id2label ba 1 logits
        = ClsOut.flat (classifyVals e id2label 1 logits).flatten := by
  refine ⟨?_, rfl, by simp [TextClassificationPipeline_call],
    by simp [ImageClassificationPipeline_call]⟩
  intro b hb
  refine ⟨softmax_sum_one e hpos b (hne b hb), ?_, ?_, ?_⟩
  · simp [getTopItems_length, softmax_length, Nat.min_eq_left (hlen b hb)]
  · exact List.pairwise_map.mpr (pairwise_getTopItems (softmax e b) topk)
  · intro v hv
    rcases List.mem_map.mp hv with ⟨p, hp, rfl⟩
    rcases mem_getTopItems hp with ⟨hlt, hsc⟩
    refine ⟨p.1, List.mem_range.mpr (by simpa [softmax_length] using hlt), rfl, ?_⟩
    simpa using hsc

/-- Witness for C3 at `topk = 2` over the single logit row `[0, 1, 2]`. -/
theorem C3_classification_topk_witness :
    (softmax eOne [0, 1, 2]).sum = 1
    ∧ ((getTopItems (softmax eOne [0, 1, 2]) 2).map
        (fun x => (⟨labelL x.1, x.2⟩ : LabeledScore))).length = 2 := by
  have h := C3_classification_topk eOne labelL 2 [[0, 1, 2]] true
    (fun _ => one_pos) (by decide) (by decide)
  exact ⟨(h.1 [0, 1, 2] (by simp)).1, (h.1 [0, 1, 2] (by simp)).2.1⟩

/-- C2: every selected QA span satisfies `start ≤ end` with both indices
strictly greater than the separator token index, its score is the product
of the two independently softmaxed probabilities at its indices, at most
`topk` spans are kept per item in descending score order, every output item
carries the decode of its span's token range `ids.slice(start, end + 1)`,
and `topk = 1` yields a single object rather than a one-element list. -/
theorem C2_qa_span_search (e : ℚ → ℚ) (sep_token_id : Nat)
    (decode : List Nat → String) (ids : List Nat) (sLog eLog : List ℚ)
    (topk : Nat) (items : List (List Nat × List ℚ × List ℚ)) :
    (∀ t ∈ (qaValidSpans e sep_token_id ids sLog eLog).take topk,
        jsIndexOf ids sep_token_id < (t.1 : ℤ)
        ∧ jsIndexOf ids sep_token_id < (t.2.1 : ℤ)
        ∧ t.1 ≤ t.2.1
        ∧ t.1 < sLog.length ∧ t.2.1 < eLog.length
        ∧ t.2.2 = (softmax e sLog).getD t.1 0 * (softmax e eLog).getD t.2.1 0)
    ∧ ((qaValidSpans e sep_token_id ids sLog eLog).take topk).length ≤ topk
    ∧ ((qaValidSpans e sep_token_id ids sLog eLog).take topk).Pairwise
        (fun a b => b.2.2 ≤ a.2.2)
    ∧ (∀ q ∈ qaToReturn e sep_token_id decode items topk,
        ∃ it ∈ items,
          ∃ t ∈ (qaValidSpans e sep_token_id it.1 it.2.1 it.2.2).take topk,
            q = ⟨decode ((it.1.drop t.1).take (t.2.1 + 1 - t.1)), t.2.2⟩)
    ∧ (QuestionAnsweringPipeline_call e sep_token_id decode items 1).isSingleObject = true
    ∧ (topk ≠ 1 →
        (QuestionAnsweringPipeline_call e sep_token_id decode items topk).isSingleObject
          = false) := by
  refine ⟨?_, List.length_take_le _ _, ?_, ?_, ?_, ?_⟩
  · intro t ht
    have h1 : t ∈ qaValidSpans e sep_token_id ids sLog eLog :=
      (List.take_sublist _ _).subset ht
    simp only [qaValidSpans] at h1
    have h2 := mem_sortDescBy.mp h1
    rcases List.mem_map.mp h2 with ⟨x, hx, rfl⟩
    rcases List.mem_filter.mp hx with ⟨hx1, hx2⟩
    rcases List.mem_flatMap.mp hx1 with ⟨d, hd, hxe⟩
    rcases List.mem_map.mp hxe with ⟨e2, he2, rfl⟩
    rcases List.mem_filter.mp hd with ⟨hd1, hd2⟩
    rcases List.mem_map.mp hd1 with ⟨i, hi, rfl⟩
    rcases List.mem_filter.mp he2 with ⟨he1, he3⟩
    rcases List.mem_map.mp he1 with ⟨jj, hjj, rfl⟩
    refine ⟨by simpa using hd2, by simpa using he3, by simpa using hx2, ?_, ?_, rfl⟩
    · simpa [softmax_length] using List.mem_range.mp hi
    · simpa [softmax_length] using List.mem_range.mp hjj
  · exact List.Pairwise.sublist (List.take_sublist _ _)
      (pairwise_sortDescBy (fun t : Nat × Nat × ℚ => t.2.2) _)
  · intro q hq
    rcases List.mem_flatMap.mp hq with ⟨it, hit, hq2⟩
    rcases List.mem_map.mp hq2 with ⟨t, ht, rfl⟩
    exact ⟨it, hit, t, ht, rfl⟩
  · simp [QuestionAnsweringPipeline_call, QAOut.isSingleObject]
  · intro hk
    simp [QuestionAnsweringPipeline_call, hk, QAOut.isSingleObject]

theorem asrWindowChunks_get (len window stride jump : ℚ) :
    ∀ (fuel : Nat) (offset : ℚ) (k : Nat)
      (hk : k < (asrWindowChunks len window stride jump fuel offset).length),
      offset + (k : ℚ) * jump < len
      ∧ (asrWindowChunks len window stride jump fuel offset)[k] =
          { chunkLen := min window (len - (offset + (k : ℚ) * jump))
            left := if offset + (k : ℚ) * jump = 0 then 0 else stride
            right := if offset + ((k : ℚ) + 1) * jump < len then stride else 0
            is_last := decide (len ≤ offset + ((k : ℚ) + 1) * jump) } := by
  intro fuel
  induction fuel with
  | zero =>
    intro offset k hk
    simp [asrWindowChunks] at hk
  | succ n ih =>
    intro offset k hk
    by_cases ho : offset < len
    · simp only [asrWindowChunks, if_pos ho] at hk ⊢
      cases k with
      | zero =>
        refine ⟨by simpa using ho, ?_⟩
        simp only [List.getElem_cons_zero, Nat.cast_zero, zero_mul, add_zero,
          zero_add, one_mul]
      | succ k =>
        have hk2 : k < (asrWindowChunks len window stride jump n (offset + jump)).length := by
          simpa using hk
        have h := ih (offset + jump) k hk2
        have hcast : offset + ((k : ℚ) + 1) * jump = offset + jump + (k : ℚ) * jump := by
          ring
        have hcast2 : offset + ((k : ℚ) + 1 + 1) * jump
            = offset + jump + ((k : ℚ) + 1) * jump := by
          ring
        constructor
        · push_cast
          rw [hcast]
          exact h.1
        · rw [List.getElem_cons_succ]
          rw [h.2]
          push_cast
          rw [hcast, hcast2]
    · simp [asrWindowChunks, ho] at hk

theorem asrWindowChunks_length (len window stride jump : ℚ) (hj : 0 < jump) :
    ∀ (fuel : Nat) (offset : ℚ), len - offset ≤ jump * fuel →
      (asrWindowChunks len window stride jump fuel offset).length
        = (⌈(len - offset) / jump⌉).toNat := by
  intro fuel
  induction fuel with
  | zero =>
    intro offset h0
    simp only [Nat.cast_zero, mul_zero] at h0
    have ho : ¬ offset < len := by linarith
    have hceil : ⌈(len - offset) / jump⌉ ≤ 0 := by
      apply Int.ceil_le.mpr
      push_cast
      apply div_nonpos_of_nonpos_of_nonneg
      · linarith
      · linarith
    simp only [asrWindowChunks, if_neg ho, List.length_nil]
    omega
  | succ n ih =>
    intro offset h0
    by_cases ho : offset < len
    · have h1 : len - (offset + jump) ≤ jump * n := by
        push_cast at h0
        linarith
      have ih2 := ih (offset + jump) h1
      simp only [asrWindowChunks, if_pos ho, List.length_cons, ih2]
      have hx : (len - (offset + jump)) / jump = (len - offset) / jump - 1 := by
        field_simp
        ring
      rw [hx, Int.ceil_sub_one]
      have hpos : 0 < (len - offset) / jump := div_pos (by linarith) hj
      have h2 : 1 ≤ ⌈(len - offset) / jump⌉ := Int.ceil_pos.mpr hpos
      omega
    · have hceil : ⌈(len - offset) / jump⌉ ≤ 0 := by
        apply Int.ceil_le.mpr
        push_cast
        apply div_nonpos_of_nonpos_of_nonneg
        · linarith [not_lt.mp ho]
        · linarith
      simp only [asrWindowChunks, if_neg ho, List.length_nil]
      omega

/-- C4: with `chunk_length_s = 0` one whole-clip chunk with stride
`[len, 0, 0]` is produced and marked last; with `chunk_length_s > 0` and an
admissible explicit stride, writing `window = sr·chunk_length_s`,
`stride = sr·stride_length_s` and `jump = window − 2·stride`, the chunks
sit at offsets `0, jump, 2·jump, …` while the offset is below the signal
length (`⌈len / jump⌉` of them), chunk `k` covers
`min window (len − k·jump)` samples, the first chunk has zero left overlap
and later chunks have left overlap `stride`, a chunk has zero right
overlap exactly when it is the last (`len ≤ (k+1)·jump`) and right overlap
`stride` otherwise — all recorded in samples, with the division by the
sampling rate applied only by the post-generation conversion
`strideToSeconds`. -/
theorem C4_asr_chunk_windows (fuel : Nat) (sr len chunk s : ℚ)
    (hchunk : 0 < chunk) (hs : s < chunk)
    (hj : 0 < sr * chunk - 2 * (sr * s))
    (hfuel : len ≤ (sr * chunk - 2 * (sr * s)) * fuel) :
    (∀ sls, AutomaticSpeechRecognitionPipeline_chunks fuel sr len 0 sls
        = .ok [⟨len, 0, 0, true⟩])
    ∧ AutomaticSpeechRecognitionPipeline_chunks fuel sr len chunk (some s)
        = .ok (asrWindowChunks len (sr * chunk) (sr * s)
            (sr * chunk - 2 * (sr * s)) fuel 0)
    ∧ (asrWindowChunks len (sr * chunk) (sr * s)
          (sr * chunk - 2 * (sr * s)) fuel 0).length
        = (⌈len / (sr * chunk - 2 * (sr * s))⌉).toNat
    ∧ (∀ (k : Nat) (hk : k < (asrWindowChunks len (sr * chunk) (sr * s)
          (sr * chunk - 2 * (sr * s)) fuel 0).length),
        (k : ℚ) * (sr * chunk - 2 * (sr * s)) < len
        ∧ (asrWindowChunks len (sr * chunk) (sr * s)
            (sr * chunk - 2 * (sr * s)) fuel 0)[k] =
            { chunkLen := min (sr * chunk)
                (len - (k : ℚ) * (sr * chunk - 2 * (sr * s)))
              left := if k = 0 then 0 else sr * s
              right := if ((k : ℚ) + 1) * (sr * chunk - 2 * (sr * s)) < len
                  then sr * s else 0
              is_last := decide
                (len ≤ ((k : ℚ) + 1) * (sr * chunk - 2 * (sr * s))) })
    ∧ (∀ c : AsrChunk, strideToSeconds sr c
        = (c.chunkLen / sr, c.left / sr, c.right / sr)) := by
  refine ⟨?_, ?_, ?_, ?_, fun c => rfl⟩
  · intro sls
    simp [AutomaticSpeechRecognitionPipeline_chunks]
  · have hns : ¬ chunk ≤ s := not_le.mpr hs
    simp [AutomaticSpeechRecognitionPipeline_chunks, hchunk, hns]
  · have h := asrWindowChunks_length len (sr * chunk) (sr * s)
      (sr * chunk - 2 * (sr * s)) hj fuel 0 (by simpa using hfuel)
    simpa using h
  · intro k hk
    have h := asrWindowChunks_get len (sr * chunk) (sr * s)
      (sr * chunk - 2 * (sr * s)) fuel 0 k hk
    constructor
    · have := h.1
      linarith [h.1]
    · rw [h.2]
      have hjne : sr * chunk - 2 * (sr * s) ≠ 0 := ne_of_gt hj
      congr 1
      · ring_nf
      · simp only [zero_add, mul_eq_zero, Nat.cast_eq_zero]
        by_cases hk0 : k = 0
        · simp [hk0]
        · have : ¬ ((k : ℚ) = 0 ∨ sr * chunk - 2 * (sr * s) = 0) := by
            push_neg
            exact ⟨Nat.cast_ne_zero.mpr hk0, hjne⟩
          simp only [Nat.cast_eq_zero] at this
          simp [hk0, hjne]
      · simp only [zero_add]
      · simp only [zero_add]

/-- Witness for C4 at sampling rate 1, a 10-sample clip, 6-second window
and 1-second stride (so jump = 4 and three chunks are produced). -/
theorem C4_asr_chunk_windows_witness :
    AutomaticSpeechRecognitionPipeline_chunks 3 1 10 0 (some 1)
      = .ok [⟨10, 0, 0, true⟩]
    ∧ AutomaticSpeechRecognitionPipeline_chunks 3 1 10 6 (some 1)
      = .ok (asrWindowChunks 10 (1 * 6) (1 * 1) (1 * 6 - 2 * (1 * 1)) 3 0)
    ∧ (asrWindowChunks 10 (1 * 6) (1 * 1) (1 * 6 - 2 * (1 * 1)) 3 0).length
      = (⌈(10 : ℚ) / (1 * 6 - 2 * (1 * 1))⌉).toNat := by
  have h := C4_asr_chunk_windows 3 1 10 6 1 (by norm_num) (by norm_num)
    (by norm_num) (by norm_num)
  exact ⟨h.1 (some 1), h.2.1, h.2.2.1⟩

/-- C7: for `chunk_length_s > 0` an explicitly supplied
`stride_length_s ≥ chunk_length_s` raises the validation error, and an
unspecified `stride_length_s` defaults to `chunk_length_s / 6`. -/
theorem C7_asr_stride_validation (fuel : Nat) (sr len chunk s : ℚ)
    (hchunk : 0 < chunk) :
    (chunk ≤ s →
      AutomaticSpeechRecognitionPipeline_chunks fuel sr len chunk (some s)
        = .error "`chunk_length_s` must be larger than `stride_length_s`.")
    ∧ AutomaticSpeechRecognitionPipeline_chunks fuel sr len chunk none
        = AutomaticSpeechRecognitionPipeline_chunks fuel sr len chunk
            (some (chunk / 6)) := by
  constructor
  · intro hcs
    simp [AutomaticSpeechRecognitionPipeline_chunks, hchunk, hcs]
  · have h6 : ¬ chunk ≤ chunk / 6 :=
      not_le.mpr (div_lt_self hchunk (by norm_num))
    simp [AutomaticSpeechRecognitionPipeline_chunks, hchunk, h6]

/-- Witness for C7 at `chunk_length_s = 6` with an oversized stride 7 and
with the stride left unspecified. -/
theorem C7_asr_stride_validation_witness :
    AutomaticSpeechRecognitionPipeline_chunks 1 1 1 6 (some 7)
      = .error "`chunk_length_s` must be larger than `stride_length_s`."
    ∧ AutomaticSpeechRecognitionPipeline_chunks 1 1 1 6 none
      = AutomaticSpeechRecognitionPipeline_chunks 1 1 1 6 (some (6 / 6)) :=
  ⟨(C7_asr_stride_validation 1 1 1 6 7 (by norm_num)).1 (by norm_num),
   (C7_asr_stride_validation 1 1 1 6 7 (by norm_num)).2⟩

theorem zeroShotRawScores_length (e : ℚ → ℚ) (eid cid n : Nat) (ml : Bool)
    (ll : List (List ℚ)) :
    (zeroShotRawScores e eid cid n ml ll).length = ll.length := by
  unfold zeroShotRawScores
  split <;> simp [softmax_length]

theorem range_map_getD {α : Type} (l : List α) (d : α) :
    (List.range l.length).map (fun i => l.getD i d) = l := by
  apply List.ext_getElem
  · simp
  · intro i h1 h2
    simp [List.getD_eq_getElem _ _ h2, List.getElem?_eq_getElem h2]

theorem range_map_getD_zip (cand : List String) (scores : List ℚ)
    (h : scores.length = cand.length) :
    (List.range scores.length).map (fun i => (cand.getD i "", scores.getD i 0))
      = cand.zip scores := by
  apply List.ext_getElem
  · simp [h]
  · intro i h1 h2
    have hi1 : i < cand.length := by
      simp at h1
      omega
    have hi2 : i < scores.length := by
      simp at h1
      omega
    simp [List.getD_eq_getElem _ _ hi1, List.getD_eq_getElem _ _ hi2,
      List.getElem?_eq_getElem hi1, List.getElem?_eq_getElem hi2]

/-- C5: with `multi_label` or a single candidate, each label's score is the
entailment entry of a softmax over that label's own (contradiction,
entailment) pair; otherwise the scores are one joint softmax of the raw
entailment logits and sum to 1; the returned labels are a permutation of
the candidate labels, paired with their scores and ordered by descending
score; and a `label2id` table lacking `entailment` or `contradiction`
falls back to ids 2 and 0 (with only a logged warning, no error). -/
theorem C5_zero_shot_scoring (e : ℚ → ℚ) (eid cid : Nat) (premise : String)
    (cand : List String) (ml : Bool) (ll : List (List ℚ))
    (label2id : List (String × Nat))
    (hpos : ∀ x, 0 < e x) (hlenc : ll.length = cand.length) (hne : ll ≠ []) :
    ((ml = true ∨ cand.length = 1) →
      zeroShotRawScores e eid cid cand.length ml ll
        = ll.map fun l => (softmax e [l.getD cid 0, l.getD eid 0]).getD 1 0)
    ∧ (ml = false → cand.length ≠ 1 →
        zeroShotRawScores e eid cid cand.length ml ll
          = softmax e (ll.map fun l => l.getD eid 0)
        ∧ (zeroShotRawScores e eid cid cand.length ml ll).sum = 1)
    ∧ ((ZeroShotClassificationPipeline_call_one e eid cid premise cand ml ll).labels).Perm
        cand
    ∧ (((ZeroShotClassificationPipeline_call_one e eid cid premise cand ml ll).labels).zip
          ((ZeroShotClassificationPipeline_call_one e eid cid premise cand ml ll).scores)).Perm
        (cand.zip (zeroShotRawScores e eid cid cand.length ml ll))
    ∧ ((ZeroShotClassificationPipeline_call_one e eid cid premise cand ml ll).scores).Pairwise
        (fun a b => b ≤ a)
    ∧ ((label2id.map fun p => (p.1.toLower, p.2)).lookup "entailment" = none →
        (resolveNliIds label2id).1 = 2)
    ∧ ((label2id.map fun p => (p.1.toLower, p.2)).lookup "contradiction" = none →
        (resolveNliIds label2id).2 = 0) := by
  have hslen : (zeroShotRawScores e eid cid cand.length ml ll).length = cand.length := by
    rw [zeroShotRawScores_length, hlenc]
  have hlabels : (ZeroShotClassificationPipeline_call_one e eid cid premise cand ml ll).labels
      = (sortDescBy (fun p : ℚ × Nat => p.1)
          ((List.range (zeroShotRawScores e eid cid cand.length ml ll).length).map
            fun i => ((zeroShotRawScores e eid cid cand.length ml ll).getD i 0, i))).map
          (fun x => cand.getD x.2 "") := rfl
  have hscores : (ZeroShotClassificationPipeline_call_one e eid cid premise cand ml ll).scores
      = (sortDescBy (fun p : ℚ × Nat => p.1)
          ((List.range (zeroShotRawScores e eid cid cand.length ml ll).length).map
            fun i => ((zeroShotRawScores e eid cid cand.length ml ll).getD i 0, i))).map
          (fun x => x.1) := rfl
  refine ⟨?_, ?_, ?_, ?_, ?_, ?_, ?_⟩
  · intro h
    rcases h with h | h
    · simp [zeroShotRawScores, h]
    · simp [zeroShotRawScores, h]
  · intro h1 h2
    have hcond : (ml || (cand.length == 1)) = false := by
      simp [h1, h2]
    have heq : zeroShotRawScores e eid cid cand.length ml ll
        = softmax e (ll.map fun l => l.getD eid 0) := by
      simp [zeroShotRawScores, hcond]
    refine ⟨heq, ?_⟩
    rw [heq]
    exact softmax_sum_one e hpos _ (by simpa using hne)
  · rw [hlabels]
    refine ((perm_sortDescBy _ _).map _).trans ?_
    rw [show ((List.range (zeroShotRawScores e eid cid cand.length ml ll).length).map
          fun i => ((zeroShotRawScores e eid cid cand.length ml ll).getD i 0, i)).map
          (fun x => cand.getD x.2 "")
        = (List.range cand.length).map (fun i => cand.getD i "") from by
      rw [List.map_map, hslen]
      rfl]
    rw [range_map_getD cand ""]
  · rw [hlabels, hscores, List.zip_map']
    refine ((perm_sortDescBy _ _).map _).trans ?_
    rw [show ((List.range (zeroShotRawScores e eid cid cand.length ml ll).length).map
          fun i => ((zeroShotRawScores e eid cid cand.length ml ll).getD i 0, i)).map
          (fun x => (cand.getD x.2 "", x.1))
        = (List.range (zeroShotRawScores e eid cid cand.length ml ll).length).map
            (fun i => (cand.getD i "",
              (zeroShotRawScores e eid cid cand.length ml ll).getD i 0)) from by
      rw [List.map_map]
      rfl]
    rw [range_map_getD_zip cand _ hslen]
  · rw [hscores]
    exact List.pairwise_map.mpr (pairwise_sortDescBy _ _)
  · intro h
    simp [resolveNliIds, h]
  · intro h
    simp [resolveNliIds, h]

/-- Witness for C5: three candidates, joint-softmax mode, empty label2id. -/
theorem C5_zero_shot_scoring_witness :
    ((ZeroShotClassificationPipeline_call_one eOne 2 0 "p" ["a", "b", "c"] false
        [[0, 0, 1], [0, 0, 2], [0, 0, 3]]).labels).Perm ["a", "b", "c"]
    ∧ (zeroShotRawScores eOne 2 0 (["a", "b", "c"] : List String).length false
        [[0, 0, 1], [0, 0, 2], [0, 0, 3]]).sum = 1
    ∧ (resolveNliIds []).1 = 2 ∧ (resolveNliIds []).2 = 0 := by
  have h := C5_zero_shot_scoring eOne 2 0 "p" ["a", "b", "c"] false
    [[0, 0, 1], [0, 0, 2], [0, 0, 3]] [] (fun _ => one_pos) (by simp) (by simp)
  exact ⟨h.2.2.1, (h.2.1 rfl (by simp)).2, h.2.2.2.2.2.1 (by simp),
    h.2.2.2.2.2.2 (by simp)⟩

theorem sum_mul_binary_mask (f g : Nat → ℚ) (n : Nat)
    (hg : ∀ j < n, g j = 0 ∨ g j = 1) :
    ((List.range n).map fun j => f j * g j).sum
      = (((List.range n).filter fun j => decide (g j = 1)).map f).sum
    ∧ ((List.range n).map g).sum
      = (((List.range n).filter fun j => decide (g j = 1)).length : ℚ) := by
  induction n with
  | zero => simp
  | succ n ih =>
    have ih2 := ih fun j hj => hg j (Nat.lt_succ_of_lt hj)
    rcases hg n (Nat.lt_succ_self n) with h0 | h1
    · constructor
      · rw [List.range_succ]
        simp [List.filter_append, h0, ih2.1]
      · rw [List.range_succ]
        simp [List.filter_append, h0, ih2.2]
    · constructor
      · rw [List.range_succ]
        simp [List.filter_append, h1, ih2.1]
      · rw [List.range_succ]
        simp [List.filter_append, h1, ih2.2]

/-- C6: for a 0/1 attention mask, each mean-pooled entry is the sum of the
activations at unmasked sequence positions divided by the number of
unmasked positions (masked positions contribute zero to the sum and are
excluded from the count); for an all-ones mask it is the plain arithmetic
mean over the sequence axis; for an all-zero mask the entry is the defined
junk value 0 (the model's stand-in for JavaScript's NaN from `0/0` — no
crash); and the pooled buffer has shape `batchSize × embedDim`. -/
theorem C6_mean_pooling (lhsData attnData : List ℚ)
    (batchSize seqLength embedDim i k : Nat)
    (hbin : ∀ j < seqLength, attnData.getD (i * seqLength + j) 0 = 0
        ∨ attnData.getD (i * seqLength + j) 0 = 1) :
    meanPoolEntry lhsData attnData seqLength embedDim i k
      = (((List.range seqLength).filter
            (fun j => decide (attnData.getD (i * seqLength + j) 0 = 1))).map
          (fun j => lhsData.getD (i * embedDim * seqLength + k + j * embedDim) 0)).sum
        / (((List.range seqLength).filter
            (fun j => decide (attnData.getD (i * seqLength + j) 0 = 1))).length : ℚ)
    ∧ ((∀ j < seqLength, attnData.getD (i * seqLength + j) 0 = 1) →
        meanPoolEntry lhsData attnData seqLength embedDim i k
          = ((List.range seqLength).map
              (fun j => lhsData.getD (i * embedDim * seqLength + k + j * embedDim) 0)).sum
            / (seqLength : ℚ))
    ∧ ((∀ j < seqLength, attnData.getD (i * seqLength + j) 0 = 0) →
        meanPoolEntry lhsData attnData seqLength embedDim i k = 0)
    ∧ (FeatureExtractionPipeline_mean_pooling lhsData attnData
        batchSize seqLength embedDim).length = batchSize * embedDim := by
  have hmain := sum_mul_binary_mask
    (fun j => lhsData.getD (i * embedDim * seqLength + k + j * embedDim) 0)
    (fun j => attnData.getD (i * seqLength + j) 0) seqLength hbin
  refine ⟨?_, ?_, ?_, ?_⟩
  · show (((List.range seqLength).map fun j =>
        lhsData.getD (i * embedDim * seqLength + k + j * embedDim) 0 *
          attnData.getD (i * seqLength + j) 0).sum /
        ((List.range seqLength).map fun j => attnData.getD (i * seqLength + j) 0).sum) = _
    rw [hmain.1, hmain.2]
  · intro hone
    show (((List.range seqLength).map fun j =>
        lhsData.getD (i * embedDim * seqLength + k + j * embedDim) 0 *
          attnData.getD (i * seqLength + j) 0).sum /
        ((List.range seqLength).map fun j => attnData.getD (i * seqLength + j) 0).sum) = _
    have hnum : ((List.range seqLength).map fun j =>
        lhsData.getD (i * embedDim * seqLength + k + j * embedDim) 0 *
          attnData.getD (i * seqLength + j) 0)
        = (List.range seqLength).map fun j =>
            lhsData.getD (i * embedDim * seqLength + k + j * embedDim) 0 := by
      apply List.map_congr_left
      intro j hj
      rw [hone j (List.mem_range.mp hj), mul_one]
    have hden : ((List.range seqLength).map fun j =>
        attnData.getD (i * seqLength + j) 0)
        = (List.range seqLength).map fun _ => (1 : ℚ) := by
      apply List.map_congr_left
      intro j hj
      rw [hone j (List.mem_range.mp hj)]
    rw [hnum, hden]
    congr 1
    induction seqLength with
    | zero => simp
    | succ n ihn =>
      rw [List.range_succ]
      push_cast
      simp [ihn]
  · intro hzero
    show (((List.range seqLength).map fun j =>
        lhsData.getD (i * embedDim * seqLength + k + j * embedDim) 0 *
          attnData.getD (i * seqLength + j) 0).sum /
        ((List.range seqLength).map fun j => attnData.getD (i * seqLength + j) 0).sum) = _
    have hnum : ((List.range seqLength).map fun j =>
        lhsData.getD (i * embedDim * seqLength + k + j * embedDim) 0 *
          attnData.getD (i * seqLength + j) 0).sum = 0 := by
      apply List.sum_eq_zero
      intro x hx
      rcases List.mem_map.mp hx with ⟨j, hj, rfl⟩
      rw [hzero j (List.mem_range.mp hj), mul_zero]
    rw [hnum, zero_div]
  · simp only [FeatureExtractionPipeline_mean_pooling, List.length_flatMap,
      Function.comp, List.length_map, List.length_range]
    induction batchSize with
    | zero => simp
    | succ n ihb =>
      rw [List.range_succ]
      simp only [List.map_append, List.sum_append, ihb, List.map_cons,
        List.map_nil, List.sum_cons, List.sum_nil, Function.comp,
        List.length_map, List.length_range]
      ring

/-- Witness for C6: batch 1, sequence length 2, embedding width 2, all-ones
mask — the pooled entry is the arithmetic mean over the sequence axis. -/
theorem C6_mean_pooling_witness :
    meanPoolEntry [1, 2, 3, 4] [1, 1] 2 2 0 0
      = ((List.range 2).map
          (fun j => ([1, 2, 3, 4] : List ℚ).getD (0 * 2 * 2 + 0 + j * 2) 0)).sum
        / ((2 : Nat) : ℚ)
    ∧ (FeatureExtractionPipeline_mean_pooling [1, 2, 3, 4] [1, 1] 1 2 2).length
      = 1 * 2 := by
  have h := C6_mean_pooling [1, 2, 3, 4] [1, 1] 1 2 2 0 0
    (by
      intro j hj
      right
      interval_cases j <;> simp)
  exact ⟨h.2.1 (by
    intro j hj
    interval_cases j <;> simp), h.2.2.2⟩

/-- C8: the factory resolves the task name by exact-match alias lookup with
fallthrough to the literal name, uses only the segment before the first
underscore of the resolved name as the registry key, succeeds on a
registered key, and otherwise fails with the error message that enumerates
every registered task key. -/
theorem C8_task_resolution (task : String) :
    (TASK_ALIASES.lookup task = none →
        (jsSplitFirstUnderscore task ∈ SUPPORTED_TASKS_keys →
          pipeline_resolveTask task = .ok (jsSplitFirstUnderscore task))
      ∧ (jsSplitFirstUnderscore task ∉ SUPPORTED_TASKS_keys →
          pipeline_resolveTask task = .error ("Unsupported pipeline: " ++ task
            ++ ". Must be one of ["
            ++ String.intercalate "," SUPPORTED_TASKS_keys ++ "]")))
    ∧ (∀ a, TASK_ALIASES.lookup task = some a →
        (jsSplitFirstUnderscore a ∈ SUPPORTED_TASKS_keys →
          pipeline_resolveTask task = .ok (jsSplitFirstUnderscore a))
      ∧ (jsSplitFirstUnderscore a ∉ SUPPORTED_TASKS_keys →
          pipeline_resolveTask task = .error ("Unsupported pipeline: " ++ a
            ++ ". Must be one of ["
            ++ String.intercalate "," SUPPORTED_TASKS_keys ++ "]"))) := by
  constructor
  · intro h
    constructor <;> intro hc <;> simp [pipeline_resolveTask, h, hc]
  · intro a h
    constructor <;> intro hc <;> simp [pipeline_resolveTask, h, hc]

/-- Witness for C8: an alias hit, a variant name split at the underscore,
and an unknown task producing the key-enumerating error. -/
theorem C8_task_resolution_witness :
    pipeline_resolveTask "ner" = .ok "token-classification"
    ∧ pipeline_resolveTask "translation_en_to_fr" = .ok "translation"
    ∧ pipeline_resolveTask "bogus-task"
      = .error ("Unsupported pipeline: bogus-task. Must be one of ["
          ++ String.intercalate "," SUPPORTED_TASKS_keys ++ "]") :=
  ⟨((C8_task_resolution "ner").2 "token-classification" rfl).1 (by decide),
   ((C8_task_resolution "translation_en_to_fr").1 rfl).1 (by decide),
   ((C8_task_resolution "bogus-task").1 rfl).2 (by decide)⟩

/-- C10: `pipeline('vqa', …)` always rejects: the alias map sends `vqa` to
`visual-question-answering`, which (having no underscore) is its own
registry key, and no such key is registered, so the factory throws the
unsupported-pipeline error listing all registry keys — independently of
the model identifier and options, which are not consulted before the
throw (src/pipelines.js:1412-1418). -/
theorem C10_vqa_unsupported :
    TASK_ALIASES.lookup "vqa" = some "visual-question-answering"
    ∧ jsSplitFirstUnderscore "visual-question-answering"
      = "visual-question-answering"
    ∧ SUPPORTED_TASKS_keys.contains "visual-question-answering" = false
    ∧ pipeline_resolveTask "vqa"
      = .error ("Unsupported pipeline: visual-question-answering. Must be one of ["
          ++ String.intercalate "," SUPPORTED_TASKS_keys ++ "]") :=
  ⟨rfl, by decide, by decide, rfl⟩

/-- C9, the code evaluated at the failing input: with an explicitly
supplied subtask (`panoptic` or `instance`), `ImageSegmentationPipeline._call`
stores the post-processing function's NAME — a string — in `fn`
(`fn = this.subtasks_mapping[subtask]`, src/pipelines.js:1005, unlike the
probe branch which binds the actual method) and then invokes `fn(...)`
(src/pipelines.js:1021), raising a TypeError regardless of the processor's
capabilities.  With no subtask the probe picks the first available
capability in panoptic, instance, semantic order, and the per-segment loop
builds records carrying the segment's score, its `id2label` label and a
binary mask marking exactly the pixels whose segmentation-map value equals
the segment's id. -/
theorem C9_explicit_subtask_typeerror :
    segmentationSelectFn (some "panoptic") (fun _ => true)
      = (.strv "post_process_panoptic_segmentation", some "panoptic")
    ∧ ImageSegmentationPipeline_selectAndApply (some "panoptic") (fun _ => true)
      = .error "TypeError: fn is not a function"
    ∧ ImageSegmentationPipeline_selectAndApply (some "instance") (fun _ => true)
      = .error "TypeError: fn is not a function"
    ∧ ImageSegmentationPipeline_selectAndApply none (fun _ => true)
      = .ok "post_process_panoptic_segmentation"
    ∧ ImageSegmentationPipeline_selectAndApply none
        (fun nm => nm == "post_process_instance_segmentation")
      = .ok "post_process_instance_segmentation"
    ∧ ImageSegmentationPipeline_selectAndApply none (fun _ => false)
      = .error "Subtask null not supported."
    ∧ segmentationRecords labelL [0, 1, 1, 0] [(1, 0, 1)]
      = [⟨1, labelL 0, [0, 255, 255, 0]⟩] :=
  ⟨rfl, rfl, rfl, rfl, rfl, rfl, rfl⟩
